import Mathlib

set_option maxHeartbeats 1000000

/-!
Shallow embedding of the GPU list storage abstraction of bevy_vector_shapes:
the dual-mode buffer (GpuList) and the batched dynamic-offset uniform buffer
fallback (BatchedUniformBuffer), from
src/render/render_resource/batched_uniform_buffer.rs and
src/render/render_resource/gpu_list.rs.

Machine integers are modelled as Nat: all quantities involved (lengths,
capacities, byte offsets, device limits) are small in every reachable state,
so wrap-around never occurs on the paths the claims are about. The element
type T is an abstract type alpha; its GPU stride (the byte stride used by
the encase array metadata) and its minimum serialized size T::min_size()
are abstract Nat parameters.
-/

/-- Embeds the constant MAX_REASONABLE_UNIFORM_BUFFER_BINDING_SIZE = 1 << 20,
the 1 MiB cap applied to the reported maximum uniform-buffer binding size. -/
def MAX_REASONABLE_UNIFORM_BUFFER_BINDING_SIZE : Nat := 1 <<< 20

/-- Embeds the fields of wgpu::Limits that the code reads. -/
structure Limits where
  max_uniform_buffer_binding_size : Nat
  min_uniform_buffer_offset_alignment : Nat
  max_storage_buffers_per_shader_stage : Nat

/-- Embeds GpuListIndex<T>: the index into the array plus the optional
dynamic offset. The PhantomData element-type marker carries no data and is
dropped. -/
structure GpuListIndex where
  index : Nat
  dynamic_offset : Option Nat
deriving DecidableEq

/-- Embeds MaxCapacityArray<Vec<T>>: a backing sequence of elements paired
with a fixed declared capacity (the usize second component). -/
structure MaxCapacityArray (α : Type) where
  data : List α
  cap : Nat

/-- Embeds MaxCapacityArray::size: METADATA.stride() * self.1.max(1), with
the element stride abstracted as a Nat parameter. It does not depend on the
current length of the data, only on the capacity. -/
def MaxCapacityArray.size (stride : Nat) (m : MaxCapacityArray α) : Nat :=
  stride * (Nat.max m.cap 1)

/-- Embeds the debug_assert condition in MaxCapacityArray::write_into:
the logical length must not exceed the declared capacity. -/
def MaxCapacityArray.writeIntoAssert (m : MaxCapacityArray α) : Prop :=
  m.data.length ≤ m.cap

instance (α : Type) (m : MaxCapacityArray α) :
    Decidable (MaxCapacityArray.writeIntoAssert m) :=
  inferInstanceAs (Decidable (m.data.length ≤ m.cap))

/-- Embeds round_up: ((v + a - 1) / a) * a in integer arithmetic. -/
def round_up (v a : Nat) : Nat := ((v + a - 1) / a) * a

/-- Embeds the state of BatchedUniformBuffer<T>. The inner
DynamicUniformBuffer is modelled by the sequence of finalized chunks pushed
into it, in push order. -/
structure BatchedUniformBuffer (α : Type) where
  uniforms : List (MaxCapacityArray α)
  temp : MaxCapacityArray α
  current_offset : Nat
  dynamic_offset_alignment : Nat

namespace BatchedUniformBuffer

/-- Embeds BatchedUniformBuffer::batch_size: the capped maximum binding size
divided by T::min_size() (integer division). min_size is the abstract
T::min_size().get(). -/
def batch_size (min_size : Nat) (limits : Limits) : Nat :=
  (Nat.min limits.max_uniform_buffer_binding_size
      MAX_REASONABLE_UNIFORM_BUFFER_BINDING_SIZE) / min_size

/-- Embeds BatchedUniformBuffer::new: empty state with capacity
batch_size(limits) and alignment min_uniform_buffer_offset_alignment. -/
def new (α : Type) (min_size : Nat) (limits : Limits) :
    BatchedUniformBuffer α :=
  { uniforms := []
    temp := ⟨[], batch_size min_size limits⟩
    current_offset := 0
    dynamic_offset_alignment := limits.min_uniform_buffer_offset_alignment }

/-- Embeds BatchedUniformBuffer::clear: resets the committed chunks, the
offset and the in-progress chunk; the capacity is preserved. -/
def clear (b : BatchedUniformBuffer α) : BatchedUniformBuffer α :=
  { b with uniforms := [], current_offset := 0, temp := ⟨[], b.temp.cap⟩ }

/-- Embeds BatchedUniformBuffer::flush: pushes the in-progress chunk into
the uniform buffer, advances current_offset by the GPU size of the chunk rounded
up to the alignment, and clears the in-progress data (capacity kept). -/
def flush (stride : Nat) (b : BatchedUniformBuffer α) :
    BatchedUniformBuffer α :=
  { b with
    uniforms := b.uniforms ++ [b.temp]
    current_offset := b.current_offset +
      round_up (MaxCapacityArray.size stride b.temp) b.dynamic_offset_alignment
    temp := ⟨[], b.temp.cap⟩ }

/-- Embeds BatchedUniformBuffer::push: the result is computed from the
pre-push state (index = length of the in-progress chunk, offset =
current_offset), the element is appended, and when the length reaches the
capacity the buffer auto-flushes. -/
def push (stride : Nat) (b : BatchedUniformBuffer α) (x : α) :
    BatchedUniformBuffer α × GpuListIndex :=
  let result : GpuListIndex := ⟨b.temp.data.length, some b.current_offset⟩
  let b1 : BatchedUniformBuffer α :=
    { b with temp := ⟨b.temp.data ++ [x], b.temp.cap⟩ }
  (if b1.temp.data.length = b1.temp.cap then flush stride b1 else b1, result)

/-- Embeds BatchedUniformBuffer::write_buffer: flushes a non-empty
in-progress chunk, then uploads. The upload itself does not change the
chunk structure, so it is the identity on the modelled state. -/
def write_buffer (stride : Nat) (b : BatchedUniformBuffer α) :
    BatchedUniformBuffer α :=
  if b.temp.data.length ≠ 0 then flush stride b else b

/-- Pushes a list of elements in order, discarding the returned indices. -/
def pushMany (stride : Nat) (b : BatchedUniformBuffer α) :
    List α → BatchedUniformBuffer α
  | [] => b
  | x :: xs => pushMany stride (push stride b x).1 xs

/-- One operation of the BatchedUniformBuffer interface; the device and
queue arguments of write_buffer are irrelevant to the modelled state. -/
inductive BUBOp (α : Type) where
  | push (x : α)
  | flush
  | clear
  | write_buffer

/-- Applies one operation to the state. -/
def stepOp (stride : Nat) (b : BatchedUniformBuffer α) :
    BUBOp α → BatchedUniformBuffer α
  | BUBOp.push x => (push stride b x).1
  | BUBOp.flush => flush stride b
  | BUBOp.clear => clear b
  | BUBOp.write_buffer => write_buffer stride b

/-- Runs a sequence of BatchedUniformBuffer operations in order. -/
def runOps (stride : Nat) (b : BatchedUniformBuffer α) :
    List (BUBOp α) → BatchedUniformBuffer α
  | [] => b
  | op :: rest => runOps stride (stepOp stride b op) rest

end BatchedUniformBuffer

/-- Embeds GpuList<T>: Uniform wraps a BatchedUniformBuffer; Storage holds
the contents of the StorageBuffer and the staged Vec<T>. -/
inductive GpuList (α : Type) where
  | Uniform (b : BatchedUniformBuffer α)
  | Storage (buffer : List α) (vec : List α)

namespace GpuList

/-- Embeds GpuList::new: branches on
limits.max_storage_buffers_per_shader_stage > 0; the then-branch constructs
the Uniform variant, the else-branch the Storage variant. -/
def new (α : Type) (min_size : Nat) (limits : Limits) : GpuList α :=
  if limits.max_storage_buffers_per_shader_stage > 0 then
    Uniform (BatchedUniformBuffer.new α min_size limits)
  else
    Storage [] []

/-- Embeds GpuList::clear. -/
def clear : GpuList α → GpuList α
  | Uniform b => Uniform (BatchedUniformBuffer.clear b)
  | Storage buf _ => Storage buf []

/-- Embeds GpuList::push: the Storage path appends to the staged vec and
returns index = prior length with no dynamic offset; the Uniform path
delegates. -/
def push (stride : Nat) : GpuList α → α → GpuList α × GpuListIndex
  | Uniform b, x =>
    let r := BatchedUniformBuffer.push stride b x
    (Uniform r.1, r.2)
  | Storage buf vec, x => (Storage buf (vec ++ [x]), ⟨vec.length, none⟩)

/-- Embeds GpuList::write_buffer: the Storage path moves the staged vec
into the upload buffer (mem::take leaves it empty); the Uniform path
delegates. -/
def write_buffer (stride : Nat) : GpuList α → GpuList α
  | Uniform b => Uniform (BatchedUniformBuffer.write_buffer stride b)
  | Storage _ vec => Storage vec []

/-- Embeds GpuList::batch_size: Some of the BatchedUniformBuffer batch size
when storage buffers are available, None otherwise. -/
def batch_size (min_size : Nat) (limits : Limits) : Option Nat :=
  if limits.max_storage_buffers_per_shader_stage > 0 then
    some (BatchedUniformBuffer.batch_size min_size limits)
  else
    none

/-- Pushes a list of elements into a GpuList in order, discarding the
returned indices. -/
def pushMany (stride : Nat) (g : GpuList α) : List α → GpuList α
  | [] => g
  | x :: xs => pushMany stride (push stride g x).1 xs

/-- Returns true exactly on the Uniform variant. -/
def isUniform : GpuList α → Bool
  | Uniform _ => true
  | Storage _ _ => false

end GpuList

/-- Embeds wgpu::BufferBindingType. -/
inductive BufferBindingType where
  | Uniform
  | Storage (read_only : Bool)
deriving DecidableEq

/-- Embeds the fields of wgpu::BindGroupLayoutEntry produced by
GpuList::binding_layout, with the Buffer binding type flattened into the
entry (count is always None and is dropped); visibility (ShaderStages) is
an opaque bit set modelled as Nat. -/
structure BindGroupLayoutEntry where
  binding : Nat
  visibility : Nat
  ty : BufferBindingType
  has_dynamic_offset : Bool
  min_binding_size : Option Nat
deriving DecidableEq

/-- Embeds GpuList::binding_layout: for storage-buffer-capable devices a
dynamic-offset uniform-buffer binding with unspecified minimum size,
otherwise a read-only storage-buffer binding of minimum size T::min_size(). -/
def GpuList.binding_layout (min_size binding visibility : Nat)
    (limits : Limits) : BindGroupLayoutEntry :=
  if limits.max_storage_buffers_per_shader_stage > 0 then
    ⟨binding, visibility, BufferBindingType.Uniform, true, none⟩
  else
    ⟨binding, visibility, BufferBindingType.Storage true, false, some min_size⟩

/-- Returns true exactly when the entry is the dynamic-offset
uniform-buffer binding type. -/
def BindGroupLayoutEntry.isDynamicUniform (e : BindGroupLayoutEntry) : Bool :=
  (match e.ty with
    | BufferBindingType.Uniform => true
    | BufferBindingType.Storage _ => false) && e.has_dynamic_offset

/-! ## Helper lemmas -/

/-- The second component of push is computed from the pre-push state. -/
lemma BatchedUniformBuffer.push_snd (α : Type) (stride : Nat)
    (b : BatchedUniformBuffer α) (x : α) :
    (BatchedUniformBuffer.push stride b x).2 =
      ⟨b.temp.data.length, some b.current_offset⟩ := rfl

/-- round_up always yields a multiple of the alignment. -/
lemma round_up_dvd (v a : Nat) : a ∣ round_up v a :=
  dvd_mul_left a ((v + a - 1) / a)

/-- Successor division and remainder when the remainder is about to wrap. -/
lemma succ_div_mod_of_eq {C n : Nat} (hC : 0 < C) (h : n % C + 1 = C) :
    (n + 1) % C = 0 ∧ (n + 1) / C = n / C + 1 := by
  have hdm := Nat.div_add_mod n C
  have h1 : n + 1 = C * (n / C + 1) := by
    have h2 : C * (n / C + 1) = C * (n / C) + C := by ring
    omega
  constructor
  · rw [h1]; exact Nat.mul_mod_right C _
  · rw [h1]; exact Nat.mul_div_cancel_left _ hC

/-- Successor division and remainder when the remainder does not wrap. -/
lemma succ_div_mod_of_ne {C n : Nat} (hC : 0 < C) (h : n % C + 1 ≠ C) :
    (n + 1) % C = n % C + 1 ∧ (n + 1) / C = n / C := by
  have hdm := Nat.div_add_mod n C
  have hlt : n % C < C := Nat.mod_lt n hC
  have h1 : n + 1 = (n % C + 1) + C * (n / C) := by omega
  have h2 : n % C + 1 < C := by omega
  constructor
  · rw [h1, Nat.add_mul_mod_self_left]; exact Nat.mod_eq_of_lt h2
  · rw [h1, Nat.add_mul_div_left _ _ hC, Nat.div_eq_of_lt h2, Nat.zero_add]

/-- Pushing a list of elements on the Storage path appends them to the
staged vec in order and touches nothing else. -/
lemma gpuList_pushMany_storage (α : Type) (stride : Nat)
    (buf vec xs : List α) :
    GpuList.pushMany stride (GpuList.Storage buf vec) xs =
      GpuList.Storage buf (vec ++ xs) := by
  induction xs generalizing vec with
  | nil => simp [GpuList.pushMany]
  | cons x xs ih =>
    simp [GpuList.pushMany, GpuList.push, ih]

/-! ## Claim theorems (first batch) -/

/-- C8: for a > 0, round_up(v, a) = ((v + a - 1) / a) * a is at least v, is
a multiple of a, and is the smallest multiple of a that is at least v. -/
theorem round_up_correct (v a : Nat) (ha : 0 < a) :
    v ≤ round_up v a ∧ a ∣ round_up v a ∧
      ∀ m, a ∣ m → v ≤ m → round_up v a ≤ m := by
  refine ⟨?_, round_up_dvd v a, ?_⟩
  · rcases Nat.eq_zero_or_pos v with hv | hv
    · simp [hv]
    · have e : v + a - 1 = (v - 1) + a := by omega
      have hdm := Nat.div_add_mod (v - 1) a
      have hmod : (v - 1) % a < a := Nat.mod_lt _ ha
      have hmc : a * ((v - 1) / a) = ((v - 1) / a) * a := Nat.mul_comm _ _
      rw [round_up, e, Nat.add_div_right _ ha]
      have hx : ((v - 1) / a + 1) * a = ((v - 1) / a) * a + a := by ring
      omega
  · intro m hm hvm
    obtain ⟨t, ht⟩ := hm
    have h1 : v + a - 1 ≤ a * t + a - 1 := by omega
    have h2 : (v + a - 1) / a ≤ (a * t + a - 1) / a := Nat.div_le_div_right h1
    have h3 : (a * t + a - 1) / a = t := by
      have e : a * t + a - 1 = a * t + (a - 1) := by omega
      rw [e, Nat.mul_add_div ha, Nat.div_eq_of_lt (by omega), Nat.add_zero]
    rw [round_up, ht]
    calc (v + a - 1) / a * a ≤ t * a := Nat.mul_le_mul_right a (h3 ▸ h2)
    _ = a * t := Nat.mul_comm t a

/-- Witness for round_up_correct at v = 5, a = 4. -/
theorem round_up_correct_witness :
    0 < 4 ∧ (5 ≤ round_up 5 4 ∧ 4 ∣ round_up 5 4 ∧
      ∀ m, 4 ∣ m → 5 ≤ m → round_up 5 4 ≤ m) :=
  ⟨by decide, round_up_correct 5 4 (by decide)⟩

/-- C7: batch_size(limits) is the minimum of the hardware maximum
uniform-buffer binding size and the fixed 1 MiB cap, divided by the element
minimum size; with max binding size 65536 and element minimum size 64 it is
1024. -/
theorem batch_size_formula :
    (∀ (min_size : Nat) (limits : Limits),
      BatchedUniformBuffer.batch_size min_size limits =
        Nat.min limits.max_uniform_buffer_binding_size 1048576 / min_size) ∧
    BatchedUniformBuffer.batch_size 64 ⟨65536, 256, 8⟩ = 1024 :=
  ⟨fun _ _ => rfl, rfl⟩

/-- C4: push returns index = length of the in-progress chunk before the
element is appended and dynamic offset = current_offset before the
auto-flush decision; this holds for every state, so a flush triggered by
the push never changes the already-computed result. -/
theorem push_returns_prestate_index_and_offset (α : Type) (stride : Nat)
    (b : BatchedUniformBuffer α) (x : α) :
    (BatchedUniformBuffer.push stride b x).2 =
      ⟨b.temp.data.length, some b.current_offset⟩ := rfl

/-- C1: contrary to the claim, on a device reporting
max_storage_buffers_per_shader_stage = 8 (count > 0) GpuList::new selects
the Uniform variant, and with count = 0 it selects the Storage variant:
the branch is inverted relative to the spec and to the doc comment of the code itself, namely its GpuList doc
comment. -/
theorem gpuList_new_branch_is_inverted :
    (GpuList.new Unit 64 ⟨65536, 256, 8⟩).isUniform = true ∧
    (GpuList.new Unit 64 ⟨65536, 256, 0⟩).isUniform = false :=
  ⟨rfl, rfl⟩

/-- C6: with element minimum size 2 MiB (exceeding the 1 MiB cap) the
computed batch size is 0, yet construction succeeds silently with
zero-capacity chunks, and after a single push the flushed chunk violates
the write_into debug assertion (length exceeds capacity). -/
theorem zero_batch_size_not_rejected :
    BatchedUniformBuffer.batch_size 2097152 ⟨4294967295, 256, 0⟩ = 0 ∧
    (BatchedUniformBuffer.new Unit 2097152 ⟨4294967295, 256, 0⟩).temp.cap = 0 ∧
    ∃ c ∈ (BatchedUniformBuffer.write_buffer 64
        (BatchedUniformBuffer.push 64
          (BatchedUniformBuffer.new Unit 2097152 ⟨4294967295, 256, 0⟩) ()).1).uniforms,
      ¬ MaxCapacityArray.writeIntoAssert c := by
  refine ⟨rfl, rfl, ?_⟩
  decide

/-- C9: on the Storage path, push returns index = prior staged length with
no dynamic offset and appends the element; write_buffer moves the staged
sequence into the upload buffer in push order leaving the staging sequence
empty; and the first push after a write returns index 0. -/
theorem gpuList_storage_path (α : Type) (stride : Nat)
    (buf vec xs : List α) (x : α) :
    (GpuList.push stride (GpuList.Storage buf vec) x).2 =
      ⟨vec.length, none⟩ ∧
    (GpuList.push stride (GpuList.Storage buf vec) x).1 =
      GpuList.Storage buf (vec ++ [x]) ∧
    GpuList.write_buffer stride
        (GpuList.pushMany stride (GpuList.Storage ([] : List α) []) xs) =
      GpuList.Storage xs [] ∧
    (GpuList.push stride
        (GpuList.write_buffer stride
          (GpuList.pushMany stride (GpuList.Storage ([] : List α) []) xs))
        x).2.index = 0 := by
  refine ⟨rfl, rfl, ?_, ?_⟩
  · rw [gpuList_pushMany_storage]
    simp [GpuList.write_buffer]
  · rw [gpuList_pushMany_storage]
    simp [GpuList.write_buffer, GpuList.push]

/-- C10: the three capability checks agree on every device: batch_size is
Some exactly when new constructs the Uniform variant, and exactly when
binding_layout produces the dynamic-offset uniform-buffer binding type. -/
theorem gpuList_backend_checks_agree (α : Type)
    (min_size bslot vis : Nat) (limits : Limits) :
    ((GpuList.batch_size min_size limits).isSome =
      (GpuList.new α min_size limits).isUniform) ∧
    ((GpuList.batch_size min_size limits).isSome =
      (GpuList.binding_layout min_size bslot vis limits).isDynamicUniform) := by
  by_cases h : limits.max_storage_buffers_per_shader_stage > 0 <;>
    simp [GpuList.batch_size, GpuList.new, GpuList.binding_layout,
      GpuList.isUniform, BindGroupLayoutEntry.isDynamicUniform, h]

/-! ## Invariant of the batched uniform buffer under pushes -/

/-- Invariant of a BatchedUniformBuffer after n pushes from a fresh state
with capacity C and alignment align: the in-progress chunk holds n mod C
elements, n / C chunks of exactly C elements each have been finalized, and
current_offset is the chunk count times the aligned chunk byte size. -/
def BatchedUniformBuffer.Inv (stride C align n : Nat)
    (b : BatchedUniformBuffer α) : Prop :=
  b.temp.cap = C ∧
  b.dynamic_offset_alignment = align ∧
  b.temp.data.length = n % C ∧
  b.uniforms.length = n / C ∧
  (∀ c ∈ b.uniforms, c.data.length = C) ∧
  b.current_offset = (n / C) * round_up (stride * Nat.max C 1) align

/-- A single push preserves the invariant, advancing n by one. -/
lemma BatchedUniformBuffer.push_inv {α : Type} (stride C align n : Nat)
    (hC : 0 < C) (b : BatchedUniformBuffer α) (x : α)
    (h : BatchedUniformBuffer.Inv stride C align n b) :
    BatchedUniformBuffer.Inv stride C align (n + 1)
      (BatchedUniformBuffer.push stride b x).1 := by
  obtain ⟨hcap, halign, hlen, hulen, hchunks, hoff⟩ := h
  by_cases hfull : n % C + 1 = C
  · have hcond : (b.temp.data ++ [x]).length = b.temp.cap := by
      simp [hlen, hcap, hfull]
    obtain ⟨hm, hd⟩ := succ_div_mod_of_eq hC hfull
    refine ⟨?_, ?_, ?_, ?_, ?_, ?_⟩ <;>
      simp only [push, flush, hcond, if_pos, hm, hd]
    · exact hcap
    · exact halign
    · simp
    · simp [hulen]
    · intro c hc
      rcases List.mem_append.mp hc with hc | hc
      · exact hchunks c hc
      · rcases List.mem_singleton.mp hc with rfl
        simp [hlen, hfull]
    · simp only [MaxCapacityArray.size, hcap, halign, hoff]
      ring
  · have hcond : ¬ ((b.temp.data ++ [x]).length = b.temp.cap) := by
      simp only [List.length_append, List.length_singleton, hlen, hcap]
      exact hfull
    obtain ⟨hm, hd⟩ := succ_div_mod_of_ne hC hfull
    refine ⟨?_, ?_, ?_, ?_, ?_, ?_⟩ <;>
      simp only [push, hcond, if_neg, if_false, hm, hd]
    · exact hcap
    · exact halign
    · simp [hlen]
    · exact hulen
    · exact hchunks
    · exact hoff

/-- A fresh buffer satisfies the invariant at n = 0. -/
lemma BatchedUniformBuffer.new_inv (α : Type) (stride min_size : Nat)
    (l : Limits) :
    BatchedUniformBuffer.Inv stride
      (BatchedUniformBuffer.batch_size min_size l)
      l.min_uniform_buffer_offset_alignment 0
      (BatchedUniformBuffer.new α min_size l) := by
  refine ⟨rfl, rfl, ?_, ?_, ?_, ?_⟩ <;> simp [BatchedUniformBuffer.new]

/-- Pushing a list of elements preserves the invariant, advancing n by the
list length. -/
lemma BatchedUniformBuffer.pushMany_inv {α : Type} (stride C align : Nat)
    (hC : 0 < C) (xs : List α) :
    ∀ (n : Nat) (b : BatchedUniformBuffer α),
      BatchedUniformBuffer.Inv stride C align n b →
      BatchedUniformBuffer.Inv stride C align (n + xs.length)
        (BatchedUniformBuffer.pushMany stride b xs) := by
  induction xs with
  | nil => intro n b h; simpa [BatchedUniformBuffer.pushMany] using h
  | cons x xs ih =>
    intro n b h
    simp only [BatchedUniformBuffer.pushMany, List.length_cons]
    have e : n + (xs.length + 1) = (n + 1) + xs.length := by omega
    rw [e]
    exact ih (n + 1) _ (BatchedUniformBuffer.push_inv stride C align n hC b x h)

/-- Ceiling division coincides with flooring division when C divides N. -/
lemma ceil_div_of_mod_eq_zero {N C : Nat} (hC : 0 < C) (h : N % C = 0) :
    (N + C - 1) / C = N / C := by
  have hdm := Nat.div_add_mod N C
  have e : N + C - 1 = C * (N / C) + (C - 1) := by omega
  have hlt : C - 1 < C := Nat.sub_lt hC Nat.one_pos
  rw [e, Nat.mul_add_div hC, Nat.div_eq_of_lt hlt, Nat.add_zero]

/-- Ceiling division is one more than flooring division otherwise. -/
lemma ceil_div_of_mod_ne_zero {N C : Nat} (hC : 0 < C) (h : N % C ≠ 0) :
    (N + C - 1) / C = N / C + 1 := by
  have hdm := Nat.div_add_mod N C
  have hmod : N % C < C := Nat.mod_lt _ hC
  have h2 : C * (N / C + 1) = C * (N / C) + C := by ring
  have e : N + C - 1 = (N % C - 1) + C * (N / C + 1) := by omega
  have hlt : N % C - 1 < C := by omega
  rw [e, Nat.add_mul_div_left _ _ hC, Nat.div_eq_of_lt hlt, Nat.zero_add]

/-! ## Chunk count after a write (claim C2) -/

/-- C2: after pushing N >= 1 elements into a fresh BatchedUniformBuffer
with chunk capacity C >= 1 and then calling write_buffer, the number of
finalized chunks is ceil(N / C), and every finalized chunk except possibly
the last contains exactly C elements. -/
theorem bub_finalized_chunk_count (α : Type) (stride min_size : Nat)
    (l : Limits) (xs : List α) (hne : xs ≠ [])
    (hC : 0 < BatchedUniformBuffer.batch_size min_size l) :
    (BatchedUniformBuffer.write_buffer stride
        (BatchedUniformBuffer.pushMany stride
          (BatchedUniformBuffer.new α min_size l) xs)).uniforms.length =
      (xs.length + BatchedUniformBuffer.batch_size min_size l - 1) /
        BatchedUniformBuffer.batch_size min_size l ∧
    ∀ c ∈ (BatchedUniformBuffer.write_buffer stride
        (BatchedUniformBuffer.pushMany stride
          (BatchedUniformBuffer.new α min_size l) xs)).uniforms.dropLast,
      c.data.length = BatchedUniformBuffer.batch_size min_size l := by
  have hinv := BatchedUniformBuffer.pushMany_inv stride
    (BatchedUniformBuffer.batch_size min_size l)
    l.min_uniform_buffer_offset_alignment hC xs 0 _
    (BatchedUniformBuffer.new_inv α stride min_size l)
  rw [Nat.zero_add] at hinv
  obtain ⟨hcap, halign, hlen, hulen, hchunks, hoff⟩ := hinv
  by_cases h0 : xs.length % BatchedUniformBuffer.batch_size min_size l = 0
  · have hwb : BatchedUniformBuffer.write_buffer stride
        (BatchedUniformBuffer.pushMany stride
          (BatchedUniformBuffer.new α min_size l) xs) =
        BatchedUniformBuffer.pushMany stride
          (BatchedUniformBuffer.new α min_size l) xs := by
      unfold BatchedUniformBuffer.write_buffer
      rw [hlen, h0]
      simp
    rw [hwb, ceil_div_of_mod_eq_zero hC h0]
    exact ⟨hulen, fun c hc => hchunks c (List.dropLast_subset _ hc)⟩
  · have hwb : BatchedUniformBuffer.write_buffer stride
        (BatchedUniformBuffer.pushMany stride
          (BatchedUniformBuffer.new α min_size l) xs) =
        BatchedUniformBuffer.flush stride
          (BatchedUniformBuffer.pushMany stride
            (BatchedUniformBuffer.new α min_size l) xs) := by
      unfold BatchedUniformBuffer.write_buffer
      rw [hlen]
      simp [h0]
    rw [hwb, ceil_div_of_mod_ne_zero hC h0]
    constructor
    · show ((BatchedUniformBuffer.pushMany stride
          (BatchedUniformBuffer.new α min_size l) xs).uniforms ++
        [(BatchedUniformBuffer.pushMany stride
          (BatchedUniformBuffer.new α min_size l) xs).temp]).length = _
      rw [List.length_append, List.length_singleton, hulen]
    · show ∀ c ∈ ((BatchedUniformBuffer.pushMany stride
          (BatchedUniformBuffer.new α min_size l) xs).uniforms ++
        [(BatchedUniformBuffer.pushMany stride
          (BatchedUniformBuffer.new α min_size l) xs).temp]).dropLast, _
      rw [List.dropLast_concat]
      exact fun c hc => hchunks c hc

/-- Witness for bub_finalized_chunk_count: 3 pushes at capacity 2 yield
2 finalized chunks, every chunk but the last holding exactly 2 elements. -/
theorem bub_finalized_chunk_count_witness :
    ([(), (), ()] : List Unit) ≠ [] ∧
    0 < BatchedUniformBuffer.batch_size 64 ⟨128, 256, 8⟩ ∧
    ((BatchedUniformBuffer.write_buffer 4
        (BatchedUniformBuffer.pushMany 4
          (BatchedUniformBuffer.new Unit 64 ⟨128, 256, 8⟩)
          [(), (), ()])).uniforms.length =
      (([(), (), ()] : List Unit).length +
          BatchedUniformBuffer.batch_size 64 ⟨128, 256, 8⟩ - 1) /
        BatchedUniformBuffer.batch_size 64 ⟨128, 256, 8⟩ ∧
    ∀ c ∈ (BatchedUniformBuffer.write_buffer 4
        (BatchedUniformBuffer.pushMany 4
          (BatchedUniformBuffer.new Unit 64 ⟨128, 256, 8⟩)
          [(), (), ()])).uniforms.dropLast,
      c.data.length = BatchedUniformBuffer.batch_size 64 ⟨128, 256, 8⟩) :=
  ⟨by decide, by decide,
    bub_finalized_chunk_count Unit 4 64 ⟨128, 256, 8⟩ [(), (), ()]
      (by decide) (by decide)⟩

/-! ## Alignment divisibility of current_offset (claim C3) -/

/-- flush preserves the stored alignment and keeps current_offset a
multiple of it. -/
lemma BatchedUniformBuffer.flush_align_dvd {α : Type} (stride align : Nat)
    (b : BatchedUniformBuffer α)
    (h1 : b.dynamic_offset_alignment = align)
    (h2 : align ∣ b.current_offset) :
    (BatchedUniformBuffer.flush stride b).dynamic_offset_alignment = align ∧
      align ∣ (BatchedUniformBuffer.flush stride b).current_offset := by
  refine ⟨h1, ?_⟩
  show align ∣ b.current_offset +
    round_up (MaxCapacityArray.size stride b.temp) b.dynamic_offset_alignment
  rw [h1]
  exact dvd_add h2 (round_up_dvd _ align)

/-- Every operation preserves the stored alignment and keeps
current_offset a multiple of it. -/
lemma BatchedUniformBuffer.stepOp_align_dvd {α : Type} (stride align : Nat)
    (b : BatchedUniformBuffer α) (op : BatchedUniformBuffer.BUBOp α)
    (h1 : b.dynamic_offset_alignment = align)
    (h2 : align ∣ b.current_offset) :
    (BatchedUniformBuffer.stepOp stride b op).dynamic_offset_alignment = align ∧
      align ∣ (BatchedUniformBuffer.stepOp stride b op).current_offset := by
  cases op with
  | push x =>
    simp only [BatchedUniformBuffer.stepOp, BatchedUniformBuffer.push]
    split
    · exact BatchedUniformBuffer.flush_align_dvd stride align _ h1 h2
    · exact ⟨h1, h2⟩
  | flush => exact BatchedUniformBuffer.flush_align_dvd stride align b h1 h2
  | clear => exact ⟨h1, dvd_zero align⟩
  | write_buffer =>
    simp only [BatchedUniformBuffer.stepOp, BatchedUniformBuffer.write_buffer]
    split
    · exact BatchedUniformBuffer.flush_align_dvd stride align b h1 h2
    · exact ⟨h1, h2⟩

/-- Over every operation sequence current_offset stays a multiple of the
alignment. -/
lemma BatchedUniformBuffer.runOps_offset_dvd {α : Type} (stride align : Nat) :
    ∀ (ops : List (BatchedUniformBuffer.BUBOp α))
      (b : BatchedUniformBuffer α),
      b.dynamic_offset_alignment = align → align ∣ b.current_offset →
      align ∣ (BatchedUniformBuffer.runOps stride b ops).current_offset := by
  intro ops
  induction ops with
  | nil => intro b _ h2; simpa [BatchedUniformBuffer.runOps] using h2
  | cons op rest ih =>
    intro b h1 h2
    obtain ⟨h1s, h2s⟩ :=
      BatchedUniformBuffer.stepOp_align_dvd stride align b op h1 h2
    simpa [BatchedUniformBuffer.runOps] using
      ih (BatchedUniformBuffer.stepOp stride b op) h1s h2s

/-- C3: from a fresh buffer, the dynamic offset returned for the element
landing in chunk k = N / C (after N prior pushes) is
k * round_up(chunk_gpu_size, alignment) with chunk_gpu_size the constant
capacity-determined chunk byte size; that offset is a multiple of the
alignment, and current_offset stays a multiple of the alignment over every
operation sequence. -/
theorem bub_dynamic_offset_formula (α : Type) (stride min_size : Nat)
    (l : Limits) (xs : List α) (x : α)
    (ops : List (BatchedUniformBuffer.BUBOp α))
    (hC : 0 < BatchedUniformBuffer.batch_size min_size l) :
    (BatchedUniformBuffer.push stride
        (BatchedUniformBuffer.pushMany stride
          (BatchedUniformBuffer.new α min_size l) xs) x).2.dynamic_offset =
      some ((xs.length / BatchedUniformBuffer.batch_size min_size l) *
        round_up
          (stride * Nat.max (BatchedUniformBuffer.batch_size min_size l) 1)
          l.min_uniform_buffer_offset_alignment) ∧
    l.min_uniform_buffer_offset_alignment ∣
      (xs.length / BatchedUniformBuffer.batch_size min_size l) *
        round_up
          (stride * Nat.max (BatchedUniformBuffer.batch_size min_size l) 1)
          l.min_uniform_buffer_offset_alignment ∧
    l.min_uniform_buffer_offset_alignment ∣
      (BatchedUniformBuffer.runOps stride
        (BatchedUniformBuffer.new α min_size l) ops).current_offset := by
  have hinv := BatchedUniformBuffer.pushMany_inv stride
    (BatchedUniformBuffer.batch_size min_size l)
    l.min_uniform_buffer_offset_alignment hC xs 0 _
    (BatchedUniformBuffer.new_inv α stride min_size l)
  rw [Nat.zero_add] at hinv
  obtain ⟨hcap, halign, hlen, hulen, hchunks, hoff⟩ := hinv
  refine ⟨?_, ?_, ?_⟩
  · simp only [BatchedUniformBuffer.push_snd, hoff]
  · exact Dvd.dvd.mul_left (round_up_dvd _ _) _
  · exact BatchedUniformBuffer.runOps_offset_dvd stride
      l.min_uniform_buffer_offset_alignment ops
      (BatchedUniformBuffer.new α min_size l) rfl (dvd_zero _)

/-- Witness for bub_dynamic_offset_formula: capacity 4, alignment 256,
stride 16; the element pushed after 5 prior pushes lands in chunk 1 at
dynamic offset 256. -/
theorem bub_dynamic_offset_formula_witness :
    0 < BatchedUniformBuffer.batch_size 64 ⟨256, 256, 8⟩ ∧
    ((BatchedUniformBuffer.push 16
        (BatchedUniformBuffer.pushMany 16
          (BatchedUniformBuffer.new Unit 64 ⟨256, 256, 8⟩)
          [(), (), (), (), ()]) ()).2.dynamic_offset =
      some ((([(), (), (), (), ()] : List Unit).length /
          BatchedUniformBuffer.batch_size 64 ⟨256, 256, 8⟩) *
        round_up
          (16 * Nat.max (BatchedUniformBuffer.batch_size 64 ⟨256, 256, 8⟩) 1)
          (256 : Nat)) ∧
    (256 : Nat) ∣
      (([(), (), (), (), ()] : List Unit).length /
          BatchedUniformBuffer.batch_size 64 ⟨256, 256, 8⟩) *
        round_up
          (16 * Nat.max (BatchedUniformBuffer.batch_size 64 ⟨256, 256, 8⟩) 1)
          (256 : Nat) ∧
    (256 : Nat) ∣
      (BatchedUniformBuffer.runOps 16
        (BatchedUniformBuffer.new Unit 64 ⟨256, 256, 8⟩)
        [BatchedUniformBuffer.BUBOp.push (),
          BatchedUniformBuffer.BUBOp.flush,
          BatchedUniformBuffer.BUBOp.write_buffer]).current_offset) :=
  ⟨by decide,
    bub_dynamic_offset_formula Unit 16 64 ⟨256, 256, 8⟩
      [(), (), (), (), ()] ()
      [BatchedUniformBuffer.BUBOp.push (),
        BatchedUniformBuffer.BUBOp.flush,
        BatchedUniformBuffer.BUBOp.write_buffer]
      (by decide)⟩

/-! ## The in-progress chunk never exceeds capacity (claim C5) -/

/-- Every operation keeps the capacity fixed, the in-progress length
strictly below the capacity, and every finalized chunk within capacity. -/
lemma BatchedUniformBuffer.stepOp_cap_inv {α : Type} (stride C : Nat)
    (hC : 0 < C) (b : BatchedUniformBuffer α)
    (op : BatchedUniformBuffer.BUBOp α)
    (h1 : b.temp.cap = C) (h2 : b.temp.data.length < C)
    (h3 : ∀ c ∈ b.uniforms, c.data.length ≤ C) :
    (BatchedUniformBuffer.stepOp stride b op).temp.cap = C ∧
    (BatchedUniformBuffer.stepOp stride b op).temp.data.length < C ∧
    ∀ c ∈ (BatchedUniformBuffer.stepOp stride b op).uniforms,
      c.data.length ≤ C := by
  cases op with
  | push x =>
    simp only [BatchedUniformBuffer.stepOp, BatchedUniformBuffer.push]
    split
    · refine ⟨h1, hC, ?_⟩
      intro c hc
      rcases List.mem_append.mp hc with hc | hc
      · exact h3 c hc
      · rcases List.mem_singleton.mp hc with rfl
        simp only [List.length_append, List.length_singleton]
        omega
    · next hfull =>
      refine ⟨h1, ?_, h3⟩
      simp only [List.length_append, List.length_singleton]
      simp only [List.length_append, List.length_singleton, h1] at hfull
      omega
  | flush =>
    refine ⟨h1, hC, ?_⟩
    intro c hc
    rcases List.mem_append.mp hc with hc | hc
    · exact h3 c hc
    · rcases List.mem_singleton.mp hc with rfl
      omega
  | clear =>
    refine ⟨h1, hC, ?_⟩
    intro c hc
    simp [BatchedUniformBuffer.stepOp, BatchedUniformBuffer.clear] at hc
  | write_buffer =>
    simp only [BatchedUniformBuffer.stepOp, BatchedUniformBuffer.write_buffer]
    split
    · refine ⟨h1, hC, ?_⟩
      intro c hc
      rcases List.mem_append.mp hc with hc | hc
      · exact h3 c hc
      · rcases List.mem_singleton.mp hc with rfl
        omega
    · exact ⟨h1, h2, h3⟩

/-- The capacity invariant holds after every operation sequence. -/
lemma BatchedUniformBuffer.runOps_cap_inv {α : Type} (stride C : Nat)
    (hC : 0 < C) :
    ∀ (ops : List (BatchedUniformBuffer.BUBOp α))
      (b : BatchedUniformBuffer α),
      b.temp.cap = C → b.temp.data.length < C →
      (∀ c ∈ b.uniforms, c.data.length ≤ C) →
      (BatchedUniformBuffer.runOps stride b ops).temp.cap = C ∧
      (BatchedUniformBuffer.runOps stride b ops).temp.data.length < C ∧
      ∀ c ∈ (BatchedUniformBuffer.runOps stride b ops).uniforms,
        c.data.length ≤ C := by
  intro ops
  induction ops with
  | nil => intro b h1 h2 h3; exact ⟨h1, h2, h3⟩
  | cons op rest ih =>
    intro b h1 h2 h3
    obtain ⟨h1s, h2s, h3s⟩ :=
      BatchedUniformBuffer.stepOp_cap_inv stride C hC b op h1 h2 h3
    simpa [BatchedUniformBuffer.runOps] using
      ih (BatchedUniformBuffer.stepOp stride b op) h1s h2s h3s

/-- C5: starting from a fresh buffer with capacity C >= 1, after every
sequence of operations the in-progress chunk holds at most C elements, and
every finalized chunk holds at most C elements, so a chunk is never pushed
into beyond its capacity. -/
theorem bub_temp_within_capacity (α : Type) (stride min_size : Nat)
    (l : Limits) (ops : List (BatchedUniformBuffer.BUBOp α))
    (hC : 0 < BatchedUniformBuffer.batch_size min_size l) :
    (BatchedUniformBuffer.runOps stride
        (BatchedUniformBuffer.new α min_size l) ops).temp.data.length ≤
      BatchedUniformBuffer.batch_size min_size l ∧
    ∀ c ∈ (BatchedUniformBuffer.runOps stride
        (BatchedUniformBuffer.new α min_size l) ops).uniforms,
      c.data.length ≤ BatchedUniformBuffer.batch_size min_size l := by
  obtain ⟨h1, h2, h3⟩ := BatchedUniformBuffer.runOps_cap_inv stride
    (BatchedUniformBuffer.batch_size min_size l) hC ops
    (BatchedUniformBuffer.new α min_size l) rfl hC (by intro c hc; simp [BatchedUniformBuffer.new] at hc)
  exact ⟨Nat.le_of_lt h2, h3⟩

/-- Witness for bub_temp_within_capacity at capacity 2 over a mixed
operation sequence. -/
theorem bub_temp_within_capacity_witness :
    0 < BatchedUniformBuffer.batch_size 64 ⟨128, 256, 8⟩ ∧
    ((BatchedUniformBuffer.runOps 4
        (BatchedUniformBuffer.new Unit 64 ⟨128, 256, 8⟩)
        [BatchedUniformBuffer.BUBOp.push (),
          BatchedUniformBuffer.BUBOp.push (),
          BatchedUniformBuffer.BUBOp.push (),
          BatchedUniformBuffer.BUBOp.flush,
          BatchedUniformBuffer.BUBOp.push (),
          BatchedUniformBuffer.BUBOp.write_buffer,
          BatchedUniformBuffer.BUBOp.clear,
          BatchedUniformBuffer.BUBOp.push ()]).temp.data.length ≤
      BatchedUniformBuffer.batch_size 64 ⟨128, 256, 8⟩ ∧
    ∀ c ∈ (BatchedUniformBuffer.runOps 4
        (BatchedUniformBuffer.new Unit 64 ⟨128, 256, 8⟩)
        [BatchedUniformBuffer.BUBOp.push (),
          BatchedUniformBuffer.BUBOp.push (),
          BatchedUniformBuffer.BUBOp.push (),
          BatchedUniformBuffer.BUBOp.flush,
          BatchedUniformBuffer.BUBOp.push (),
          BatchedUniformBuffer.BUBOp.write_buffer,
          BatchedUniformBuffer.BUBOp.clear,
          BatchedUniformBuffer.BUBOp.push ()]).uniforms,
      c.data.length ≤ BatchedUniformBuffer.batch_size 64 ⟨128, 256, 8⟩) :=
  ⟨by decide,
    bub_temp_within_capacity Unit 4 64 ⟨128, 256, 8⟩
      [BatchedUniformBuffer.BUBOp.push (),
        BatchedUniformBuffer.BUBOp.push (),
        BatchedUniformBuffer.BUBOp.push (),
        BatchedUniformBuffer.BUBOp.flush,
        BatchedUniformBuffer.BUBOp.push (),
        BatchedUniformBuffer.BUBOp.write_buffer,
        BatchedUniformBuffer.BUBOp.clear,
        BatchedUniformBuffer.BUBOp.push ()]
      (by decide)⟩
